import Mathlib
/-!
Verification of the `hon` HTTP/WebSocket engine (github.com/DevNewbie1826/hon).

Byte strings are modelled as `List Nat` (each element a byte value 0–255).
Go `int`/`int64` arithmetic is modelled on `Int` with explicit two's-complement
wrapping (`wrap64`) at the operations where the Go code can overflow.

`Hon.Parser` embeds `pkg/engine/parser/parser.go` (the request framer).
-/

namespace Hon.Parser

/-- Byte strings, one `Nat` per byte. -/
abbrev Bytes := List Nat

/-- `"\r\n\r\n"` — the header terminator (`headerEnd` in parser.go). -/
def headerEnd : Bytes := [13, 10, 13, 10]

/-- `"\r\n"`. -/
def crlf : Bytes := [13, 10]

/-- `"Content-Length:"` (`headerCL` in parser.go). -/
def headerCL : Bytes := [67, 111, 110, 116, 101, 110, 116, 45, 76, 101, 110, 103, 116, 104, 58]

/-- `"Transfer-Encoding:"` (`headerTE` in parser.go). -/
def headerTE : Bytes :=
  [84, 114, 97, 110, 115, 102, 101, 114, 45, 69, 110, 99, 111, 100, 105, 110, 103, 58]

/-- `"chunked"` (`valChunked` in parser.go). -/
def valChunked : Bytes := [99, 104, 117, 110, 107, 101, 100]

/-- `bytes.Index(xs, pat)`: index of the first occurrence of `pat` in `xs`
(`none` for Go's `-1`). -/
def bIndex (xs pat : Bytes) : Option Nat :=
  if pat.isPrefixOf xs then some 0
  else
    match xs with
    | [] => none
    | _ :: t => (bIndex t pat).map (· + 1)

/-- `bytes.IndexByte(xs, b)`. -/
def bIndexByte (xs : Bytes) (b : Nat) : Option Nat :=
  match xs with
  | [] => none
  | y :: t => if y = b then some 0 else (bIndexByte t b).map (· + 1)

/-- ASCII white space, the byte set `bytes.TrimSpace` strips on all-ASCII input
(`'\t' '\n' '\v' '\f' '\r' ' '`). The parser only ever trims header values; the
Unicode cases of `bytes.TrimSpace` need multi-byte UTF-8 sequences and are not
exercised by any claim. -/
def isAsciiSpace (c : Nat) : Bool :=
  c == 32 || c == 9 || c == 10 || c == 11 || c == 12 || c == 13

/-- `bytes.TrimSpace` on ASCII data. -/
def trimSpace (xs : Bytes) : Bytes :=
  ((xs.dropWhile isAsciiSpace).reverse.dropWhile isAsciiSpace).reverse

/-- ASCII lower-casing of one byte. -/
def lowerByte (c : Nat) : Nat := if 65 ≤ c ∧ c ≤ 90 then c + 32 else c

/-- `bytes.EqualFold` on ASCII data: equal up to ASCII case.  In parser.go one
side is always one of the ASCII literals `headerCL`/`headerTE`/`valChunked`. -/
def asciiEqualFold (a b : Bytes) : Bool := a.map lowerByte == b.map lowerByte

/-- `containsCaseInsensitive(s, substr)` from parser.go: `substr` (assumed
lower-case) occurs in `s` after ASCII-lower-casing `s`. -/
def containsCI : Bytes → Bytes → Bool
  | _, [] => true
  | [], _ :: _ => false
  | s@(_ :: t), sub =>
    if s.length < sub.length then false
    else sub.isPrefixOf (s.map lowerByte) || containsCI t sub

/-- Two's-complement wrap of an integer into the `int64` range. -/
def wrap64 (n : Int) : Int := (n + 2 ^ 63) % 2 ^ 64 - 2 ^ 63

/-- `parseInt` from parser.go: strict decimal (digits only after an optional
leading sign), accumulating with Go's wrapping `int` arithmetic.
`none` models `strconv.ErrSyntax`. -/
def parseIntGo (b : Bytes) : Option Int :=
  if b = [] then none
  else
    let neg : Bool := b.head? = some 45
    let b := if b.head? = some 45 ∨ b.head? = some 43 then b.tail else b
    if b = [] then none
    else
      (decDigits b 0).map fun n => if neg then wrap64 (-n) else n
where
  /-- The digit loop of `parseInt`: `n = n*10 + int(ch-'0')`. -/
  decDigits : Bytes → Int → Option Int
    | [], n => some n
    | c :: t, n =>
      if 48 ≤ c ∧ c ≤ 57 then decDigits t (wrap64 (n * 10 + ((c : Int) - 48)))
      else none

/-- `parseHexInt` from parser.go: hex digits `0-9a-fA-F`, wrapping `int64`
accumulation. `none` models `strconv.ErrSyntax`. -/
def parseHexIntGo (b : Bytes) : Option Int :=
  if b = [] then none else hexDigits b 0
where
  hexDigits : Bytes → Int → Option Int
    | [], n => some n
    | c :: t, n =>
      if 48 ≤ c ∧ c ≤ 57 then hexDigits t (wrap64 (n * 16 + ((c : Int) - 48)))
      else if 97 ≤ c ∧ c ≤ 102 then hexDigits t (wrap64 (n * 16 + ((c : Int) - 97 + 10)))
      else if 65 ≤ c ∧ c ≤ 70 then hexDigits t (wrap64 (n * 16 + ((c : Int) - 65 + 10)))
      else none

/-- Result of `CheckRequest` (`CheckResult` in parser.go). `bytesConsumed` is a
Go `int`, hence `Int`; `hasError` records a non-nil `Error` field. -/
structure CheckResult where
  complete : Bool
  bytesConsumed : Int
  hasError : Bool
deriving DecidableEq, Repr

/-- The header-scanning loop of `CheckRequest` (the `for len(cur) > 0` loop):
splits `cur` on CRLF and folds the `Content-Length` / `Transfer-Encoding`
updates. `fuel` only bounds the recursion; each step strictly shrinks `cur`,
so `cur.length + 1` initial fuel is never exhausted. -/
def scanHeaders : Nat → Bytes → Int → Bool → Int × Bool
  | 0, _, cl, ch => (cl, ch)
  | _ + 1, [], cl, ch => (cl, ch)
  | fuel + 1, cur, cl, ch =>
    let cut : Bytes × Bytes :=
      match bIndex cur crlf with
      | some idx => (cur.take idx, cur.drop (idx + 2))
      | none => (cur, [])
    let line := cut.1
    let rest := cut.2
    if line.length > headerCL.length ∧ asciiEqualFold (line.take headerCL.length) headerCL then
      match parseIntGo (trimSpace (line.drop headerCL.length)) with
      | some n => scanHeaders fuel rest n ch
      | none => scanHeaders fuel rest cl ch
    else if line.length > headerTE.length ∧
        asciiEqualFold (line.take headerTE.length) headerTE then
      let val := trimSpace (line.drop headerTE.length)
      let ch' := if val.length ≥ valChunked.length ∧
          (asciiEqualFold val valChunked ∨ containsCI val valChunked) then true else ch
      scanHeaders fuel rest cl ch'
    else scanHeaders fuel rest cl ch

/-- The chunk-size line of one iteration of the chunked walk: the bytes up to
the CRLF at `idx`, cut at the first `';'` (chunk extension) and trimmed. -/
def chunkLine (bodyData : Bytes) (offset idx : Nat) : Bytes :=
  let line := (bodyData.drop offset).take idx
  trimSpace
    (match bIndexByte line 59 with
     | some semi => line.take semi
     | none => line)

/-- The chunked-body walk of `CheckRequest` (the `for { ... }` loop in the
`isChunked` branch). `offset` is the cursor into `bodyData`; the Go locals
`offset += idx + 2` and `w = int(chunkSize) + 2` are written out inline.
`none` models the runs on which the Go loop does not return a `CheckResult`:
a slice-bounds panic from a wrapped-negative chunk size, or non-termination
(the walk is deterministic in `offset ∈ [0, len]`, so a terminating Go run
takes at most `bodyData.length + 1` iterations and the fuel passed by
`checkRequest` is never exhausted on a terminating run). -/
def walkChunks (bodyData : Bytes) (headerBodySep : Nat) : Nat → Nat → Option CheckResult
  | 0, _ => none
  | fuel + 1, offset =>
    match bIndex (bodyData.drop offset) crlf with
    | none => some ⟨false, 0, false⟩
    | some idx =>
      match parseHexIntGo (chunkLine bodyData offset idx) with
      | none => some ⟨false, 0, true⟩
      | some chunkSize =>
        if chunkSize = 0 then
          match bIndex (bodyData.drop (offset + idx + 2)) crlf with
          | none => some ⟨false, 0, false⟩
          | some trailerEnd =>
            some ⟨true, ((headerBodySep + (offset + idx + 2) + trailerEnd + 2 : Nat) : Int), false⟩
        else
          if ((bodyData.length - (offset + idx + 2) : Nat) : Int) < wrap64 (chunkSize + 2) then
            some ⟨false, 0, false⟩
          else
            if wrap64 ((offset + idx + 2 : Nat) + wrap64 (chunkSize + 2)) < 0 ∨
                (bodyData.length : Int) < wrap64 ((offset + idx + 2 : Nat) + wrap64 (chunkSize + 2)) then
              none
            else
              walkChunks bodyData headerBodySep fuel
                (wrap64 ((offset + idx + 2 : Nat) + wrap64 (chunkSize + 2))).toNat

/-- The header scan of `CheckRequest`: drop the request line (ending at the
CRLF at `idx` inside `data[:headerEndIdx]`) and fold the remaining lines with
`scanHeaders`, starting from `contentLength = -1, isChunked = false`. -/
def headerScan (data : Bytes) (headerEndIdx idx : Nat) : Int × Bool :=
  let cur := (data.take headerEndIdx).drop (idx + 2)
  scanHeaders (cur.length + 1) cur (-1) false

/-- `CheckRequest` from parser.go. The Go locals `headerBodySep = headerEndIdx
+ 4`, `headers = data[:headerEndIdx]` and `totalLen = headerBodySep +
contentLength` are written out inline. `none` models a run with no returned
`CheckResult` (panic or divergence inside the chunked walk). -/
def checkRequest (data : Bytes) : Option CheckResult :=
  match bIndex data headerEnd with
  | none => some ⟨false, 0, false⟩
  | some headerEndIdx =>
    match bIndex (data.take headerEndIdx) crlf with
    | none => some ⟨false, 0, false⟩
    | some idx =>
      if (headerScan data headerEndIdx idx).2 then
        walkChunks (data.drop (headerEndIdx + 4)) (headerEndIdx + 4)
          ((data.drop (headerEndIdx + 4)).length + 2) 0
      else if 0 ≤ (headerScan data headerEndIdx idx).1 then
        if wrap64 ((headerEndIdx + 4 : Nat) + (headerScan data headerEndIdx idx).1) ≤
            (data.length : Int) then
          some ⟨true, wrap64 ((headerEndIdx + 4 : Nat) + (headerScan data headerEndIdx idx).1),
            false⟩
        else some ⟨false, 0, false⟩
      else some ⟨true, ((headerEndIdx + 4 : Nat) : Int), false⟩

/-- `"GET / HTTP/1.1\r\nHost: x\r\n\r\n"` (27 bytes), a complete request. -/
def sampleKeepAliveReq : Bytes :=
  [71, 69, 84, 32, 47, 32, 72, 84, 84, 80, 47, 49, 46, 49, 13, 10,
   72, 111, 115, 116, 58, 32, 120, 13, 10, 13, 10]

/-- `"POST / HTTP/1.1\r\nTransfer-Encoding: chunked\r\n\r\n5\r\nHello\r\n0\r\n\r\n"`
(62 bytes), the chunked request of the spec's scenario 2. -/
def chunkedReqBytes : Bytes :=
  [80, 79, 83, 84, 32, 47, 32, 72, 84, 84, 80, 47, 49, 46, 49, 13, 10,
   84, 114, 97, 110, 115, 102, 101, 114, 45, 69, 110, 99, 111, 100, 105, 110, 103, 58,
   32, 99, 104, 117, 110, 107, 101, 100, 13, 10, 13, 10,
   53, 13, 10, 72, 101, 108, 108, 111, 13, 10, 48, 13, 10, 13, 10]

/-- The same bytes truncated after `"5\r\nHello\r\n"` (57 bytes). -/
def chunkedReqTruncBytes : Bytes :=
  [80, 79, 83, 84, 32, 47, 32, 72, 84, 84, 80, 47, 49, 46, 49, 13, 10,
   84, 114, 97, 110, 115, 102, 101, 114, 45, 69, 110, 99, 111, 100, 105, 110, 103, 58,
   32, 99, 104, 117, 110, 107, 101, 100, 13, 10, 13, 10,
   53, 13, 10, 72, 101, 108, 108, 111, 13, 10]

/-- `"POST / HTTP/1.1\r\nContent-Length: -5\r\n\r\nHello"` (44 bytes, header
terminator at 35): a negative `Content-Length`. -/
def negCLReqBytes : Bytes :=
  [80, 79, 83, 84, 32, 47, 32, 72, 84, 84, 80, 47, 49, 46, 49, 13, 10,
   67, 111, 110, 116, 101, 110, 116, 45, 76, 101, 110, 103, 116, 104, 58, 32, 45, 53,
   13, 10, 13, 10, 72, 101, 108, 108, 111]

/-- `"POST / HTTP/1.1\r\nContent-Length: abc\r\n\r\nHi"` (42 bytes, header
terminator at 36): an unparseable `Content-Length`. -/
def badCLReqBytes : Bytes :=
  [80, 79, 83, 84, 32, 47, 32, 72, 84, 84, 80, 47, 49, 46, 49, 13, 10,
   67, 111, 110, 116, 101, 110, 116, 45, 76, 101, 110, 103, 116, 104, 58, 32, 97, 98, 99,
   13, 10, 13, 10, 72, 105]

end Hon.Parser

/-!
`Hon.Adaptor` embeds the `ResponseWriter` state machine of
`pkg/adaptor/adaptor.go`.  The `bufio.Writer` is modelled by two byte lists:
`buf` (buffered, not yet flushed) and `sent` (flushed to the connection); the
connection is modelled as error-free, so every Go `error` return that can only
be an I/O error is `none` here.  `http.Header` is modelled as an association
list with canonical-cased keys (the adaptor itself only uses canonical
literals); Go's `Header.Write` sorts keys, the serialization order is not
load-bearing for any claim and is modelled as list order.  All strings
involved are ASCII, so a `Char` is one byte.
-/

namespace Hon.Adaptor

open Hon.Parser (Bytes)

/-- ASCII string to bytes. -/
def strB (s : String) : Bytes := s.data.map Char.toNat

/-- `crlf` from adaptor.go. -/
def crlfB : Bytes := strB "\r\n"

/-- `chunkEnd = "0\r\n\r\n"` from adaptor.go. -/
def chunkEndB : Bytes := strB "0\r\n\r\n"

/-- `http.Header`, as an association list. -/
abbrev Header := List (String × String)

/-- `Header.Get`: first value for the key, `""` when absent. -/
def hdrGet (h : Header) (k : String) : String :=
  ((h.find? (fun p => p.1 == k)).map (fun p => p.2)).getD ""

/-- `Header.Set`: replace all bindings of the key. -/
def hdrSet (h : Header) (k v : String) : Header :=
  (k, v) :: h.filter (fun p => p.1 != k)

/-- `w.header.Write(bufWriter)`: one `"Key: value\r\n"` line per entry. -/
def headerWriteBytes (h : Header) : Bytes :=
  (h.map (fun p => strB p.1 ++ strB ": " ++ strB p.2 ++ crlfB)).flatten

/-- Models the process-global cached RFC-1123 `Date` string (`currentDate` in
adaptor.go, refreshed by a ticker); its value is irrelevant to the claims. -/
def currentDateModel : String := "Mon, 01 Jan 2024 00:00:00 GMT"

/-- `http.StatusText`, restricted to the status codes the claims exercise;
any other code yields `""` and takes the `"status code <n>"` fallback exactly
as in the source. -/
def statusText (c : Int) : String :=
  if c = 200 then "OK" else if c = 500 then "Internal Server Error" else ""

/-- The status line written by `ensureHeaderSent`:
`"HTTP/1.1 <code> <reason>\r\n"`. -/
def statusLine (code : Int) : String :=
  "HTTP/1.1 " ++ toString code ++ " " ++
    (if statusText code = "" then "status code " ++ toString code else statusText code) ++
    "\r\n"

/-- `ResponseWriter` (pkg/adaptor/adaptor.go), with the `bufio.Writer` split
into `buf`/`sent`.  The `ctx`/`req` handles carry no claim-relevant state. -/
structure RW where
  header : Header
  statusCode : Int
  hijacked : Bool
  headerSent : Bool
  chunked : Bool
  buf : Bytes
  sent : Bytes
deriving DecidableEq, Repr

/-- `NewResponseWriter`: status 200, all flags clear, empty header map. -/
def newResponseWriter : RW := ⟨[], 200, false, false, false, [], []⟩

/-- `strconv.AppendInt(_, int64(n), 16)` for `n ≥ 0`: lower-case hex digits. -/
def hexLenBytes (n : Nat) : Bytes := (Nat.toDigits 16 n).map Char.toNat

/-- One chunk of the chunked transfer coding: `hex(len) CRLF payload CRLF`. -/
def chunkWrap (p : Bytes) : Bytes := hexLenBytes p.length ++ crlfB ++ p ++ crlfB

/-- The `chunked` flag computed by `ensureHeaderSent`: no `Content-Length`
header means streaming, hence chunked. -/
def ensureChunked (w : RW) : Bool := hdrGet w.header "Content-Length" == ""

/-- The bytes `ensureHeaderSent` appends to the writer: status line, `Date`
(unless user-set), the header map, the `Transfer-Encoding: chunked` fast path
(only when chunked and the user set no `Transfer-Encoding`), final CRLF. -/
def ensureOut (w : RW) : Bytes :=
  strB (statusLine w.statusCode) ++
    (if hdrGet w.header "Date" = "" then strB "Date: " ++ strB currentDateModel ++ crlfB
     else []) ++
    headerWriteBytes w.header ++
    (if ensureChunked w = true ∧ hdrGet w.header "Transfer-Encoding" = "" then
      strB "Transfer-Encoding: chunked\r\n"
     else []) ++
    crlfB

/-- `ensureHeaderSent` from adaptor.go. -/
def ensureHeaderSent (w : RW) : RW :=
  if w.headerSent then w
  else { w with chunked := ensureChunked w, headerSent := true, buf := w.buf ++ ensureOut w }

/-- Writer-method errors: `http.ErrHijacked` and Hijack's `"already hijacked"`. -/
inductive WErr where
  | hijacked
  | alreadyHijacked
deriving DecidableEq, Repr

/-- The Content-Type sniffing step at the top of `Write`: if unset, set
`Content-Type` from the first ≤ 512 bytes.  `detect` abstracts the external
`http.DetectContentType`. -/
def sniffCT (detect : Bytes → String) (w : RW) (p : Bytes) : RW :=
  if hdrGet w.header "Content-Type" = "" then
    { w with header := hdrSet w.header "Content-Type" (detect (p.take 512)) }
  else w

/-- The body-writing tail shared by `Write` and `WriteString` (the code after
headers are ensured): chunk-framed when `chunked`, raw otherwise. -/
def writeBody (w : RW) (p : Bytes) : RW × Nat × Option WErr :=
  if w.chunked then ({ w with buf := w.buf ++ chunkWrap p }, p.length, none)
  else ({ w with buf := w.buf ++ p }, p.length, none)

/-- `ResponseWriter.Write`.  Returns the new state, the byte count and the
error (`http.ErrHijacked` after hijack; I/O errors are not modelled). -/
def write (detect : Bytes → String) (w : RW) (p : Bytes) : RW × Nat × Option WErr :=
  if w.hijacked then (w, 0, some .hijacked)
  else if p.length = 0 then (w, 0, none)
  else if w.headerSent then writeBody w p
  else writeBody (ensureHeaderSent (sniffCT detect w p)) p

/-- `ResponseWriter.WriteString` (no sniffing, otherwise like `Write`). -/
def writeString (w : RW) (s : String) : RW × Nat × Option WErr :=
  if w.hijacked then (w, 0, some .hijacked)
  else if (strB s).length = 0 then (w, 0, none)
  else if w.headerSent then writeBody w (strB s)
  else writeBody (ensureHeaderSent w) (strB s)

/-- The copy loop of `ReadFrom`: each element of `chunks` is one successful
`Read` from the source (the loop ends at EOF). -/
def readLoop : RW → List Bytes → Nat → RW × Nat × Option WErr
  | w, [], n => (w, n, none)
  | w, c :: rest, n =>
    if c.length = 0 then readLoop w rest n
    else if w.chunked then readLoop { w with buf := w.buf ++ chunkWrap c } rest (n + c.length)
    else readLoop { w with buf := w.buf ++ c } rest (n + c.length)

/-- `ResponseWriter.ReadFrom`.  In the non-chunked case the source first
flushes buffered bytes; the `sendfile` delegation depends on the concrete
connection type and is not modelled (the pooled-buffer copy loop is). -/
def readFrom (w : RW) (chunks : List Bytes) : RW × Nat × Option WErr :=
  if w.hijacked then (w, 0, some .hijacked)
  else
    let w := if w.headerSent then w else ensureHeaderSent w
    let w := if w.chunked then w else { w with sent := w.sent ++ w.buf, buf := [] }
    readLoop w chunks 0

/-- `ResponseWriter.WriteHeader` (void in Go: no error is returned). -/
def writeHeader (w : RW) (code : Int) : RW :=
  if w.hijacked = true ∨ w.headerSent = true then w else { w with statusCode := code }

/-- `ResponseWriter.Flush` (void in Go: no error is returned). -/
def flush (w : RW) : RW :=
  if w.hijacked then w
  else
    let w := ensureHeaderSent w
    { w with sent := w.sent ++ w.buf, buf := [] }

/-- The tail of `EndResponse` after headers are ensured: append the
terminating chunk `"0\r\n\r\n"` when chunked, then flush. -/
def endFlush (w : RW) : RW × Option WErr :=
  if w.chunked then ({ w with sent := w.sent ++ (w.buf ++ chunkEndB), buf := [] }, none)
  else ({ w with sent := w.sent ++ w.buf, buf := [] }, none)

/-- `ResponseWriter.EndResponse`. -/
def endResponse (w : RW) : RW × Option WErr :=
  if w.hijacked then (w, none)
  else if w.headerSent then endFlush w
  else endFlush (ensureHeaderSent { w with header := hdrSet w.header "Content-Length" "0" })

/-- `ResponseWriter.Hijack` (state part): flush, mark hijacked; the returned
connection wrapper carries no claim-relevant state. -/
def hijackOp (w : RW) : RW × Option WErr :=
  if w.hijacked then (w, some .alreadyHijacked)
  else ({ w with hijacked := true, sent := w.sent ++ w.buf, buf := [] }, none)

end Hon.Adaptor

/-!
`Hon.Engine` embeds the claim-relevant parts of `pkg/engine/engine.go`
(the revision with reference counting, cited by the claims): the panic
recovery and response finalization of `handleRequest`, the keep-alive body
drain of `serveHTTP`, and the `Processing` flag protocol of
`ServeConn`/`serveHTTP` as a transition system.
-/

namespace Hon.Engine

open Hon.Parser (Bytes)

open Hon.Adaptor

/-- Outcome of running the user handler against a `ResponseWriter`: either it
returns normally or it panics, in both cases leaving the writer in some
state. -/
inductive HOutcome where
  | normal (w : RW)
  | panicked (w : RW)

/-- `Engine.handleRequest` (engine.go, refcount revision), from the point the
handler is invoked: run the handler under panic recovery — on a panic, write
a 500 via `WriteHeader`+`EndResponse` only when `HeaderSent()` is false —
otherwise finalize with `EndResponse`.  Returns (writer state, hijacked flag,
errored flag); `errored` is true exactly when the Go function returns a
non-nil error ("handler panicked"; I/O errors are not modelled). -/
def handleRequest (run : RW → HOutcome) (w0 : RW) : RW × Bool × Bool :=
  match run w0 with
  | .normal w1 =>
    let e := endResponse w1
    (e.1, e.1.hijacked, e.2.isSome)
  | .panicked w1 =>
    if w1.headerSent then (w1, false, true)
    else ((endResponse (writeHeader w1 500)).1, false, true)

/-- `serveHTTP`'s error branch: a non-nil `handleRequest` error closes the
connection unless it is `io.EOF`; nothing further is written either way. -/
def closesConnOnError (isEOF : Bool) : Bool := !isEOF

/-- `MaxDrainSize` from engine.go. -/
def MaxDrainSize : Nat := 64 * 1024

/-- The keep-alive body drain of `serveHTTP`:
`io.Copy(io.Discard, io.LimitReader(req.Body, maxDrainSize+1))` reads
`min(remaining, maxDrainSize+1)` bytes of the `remaining` unread body, and
`req.Close` is forced when more than `maxDrainSize` bytes were drained.
Returns (bytes drained, updated `req.Close`). -/
def drainStep (remaining maxDrain : Nat) (reqClose : Bool) : Nat × Bool :=
  (min remaining (maxDrain + 1), reqClose || decide (maxDrain < min remaining (maxDrain + 1)))

/-- The keep-alive decision after the drain: the connection stays open iff
neither `req.Close` is set nor the request carried `Connection: close`. -/
def keepAliveDecision (reqClose connectionHeaderClose : Bool) : Bool :=
  !(reqClose || connectionHeaderClose)

/-- One synchronization event on a connection's `Processing` flag:
`acquire w` is `Processing.CompareAndSwap(false, true)` by worker `w` on entry
to `ServeConn` (or at the double-check re-acquire); `release w` is
`Processing.Store(false)` by the worker currently inside the state machine. -/
inductive LockEvent where
  | acquire (workerId : Nat)
  | release (workerId : Nat)
deriving DecidableEq, Repr

/-- The `Processing` flag and the set of workers currently inside the
connection state machine (`serveHTTP` / the `ReadHandler` block). -/
structure LockState where
  processing : Bool
  inCrit : List Nat
deriving DecidableEq, Repr

/-- Initial per-connection state: flag clear, no worker inside. -/
def lockInit : LockState := ⟨false, []⟩

/-- One atomic step.  A failed CAS leaves the state unchanged (the worker
returns immediately without entering).  `Store(false)` is only executed by
code inside the critical section, so a `release` by a worker not inside is
not a trace of the program (`none`). -/
def lockStep (s : LockState) : LockEvent → Option LockState
  | .acquire wid => if s.processing then some s else some ⟨true, wid :: s.inCrit⟩
  | .release wid =>
    if wid ∈ s.inCrit then some ⟨false, s.inCrit.erase wid⟩ else none

/-- Run a sequence of events from a state. -/
def lockRun : LockState → List LockEvent → Option LockState
  | s, [] => some s
  | s, e :: es =>
    match lockStep s e with
    | none => none
    | some s' => lockRun s' es

end Hon.Engine

/-!
`Hon.WS` embeds the WebSocket frame `Assembler` of `pkg/websocket`
(`Assembler.ProcessFrame`): reassembly of fragmented messages.  The external
`DecompressData` (flate) is abstracted as a `decomp` parameter; the claims
only exercise the uncompressed path, which never calls it.
-/

namespace Hon.WS

open Hon.Parser (Bytes)

/-- The parts of `websocket.Config` read by the assembler. -/
structure WSConfig where
  maxFrameSize : Int
  enableCompression : Bool

/-- The parts of `ws.Header` read by `ProcessFrame` (the mask is applied by
the caller before the assembler runs).  `opcode 0` is `OpContinuation`;
`rsv = 4` is `RSV1` set. -/
structure WSHeader where
  fin : Bool
  rsv : Nat
  opcode : Nat
deriving DecidableEq, Repr

/-- `Assembler` state: `buffer` is `none` iff no fragmented message is in
progress (Go `nil` slice; an empty-but-non-nil buffer is `some []`). -/
structure AsmState where
  buffer : Option Bytes
  isCompressed : Bool
  lastOpCode : Nat
deriving DecidableEq, Repr

/-- `NewAssembler`: no message in progress. -/
def initAsm : AsmState := ⟨none, false, 0⟩

/-- The assembler errors of compression_test.go (`ErrUnexpectedContinuation`
etc.); `decompressFailed` stands for any error from `DecompressData`. -/
inductive AsmErr where
  | unexpectedContinuation
  | expectedContinuation
  | messageTooLarge
  | decompressFailed
deriving DecidableEq, Repr

/-- `Assembler.ProcessFrame`.  Returns (state, delivery, error); a delivery
`(data, op, isReassembled)` corresponds to Go's `complete = true` return. -/
def processFrame (decomp : Bytes → Int → Option Bytes) (cfg : WSConfig) (st : AsmState)
    (h : WSHeader) (payload : Bytes) :
    AsmState × Option (Bytes × Nat × Bool) × Option AsmErr :=
  match st.buffer with
  | none =>
    if h.opcode = 0 then (st, none, some .unexpectedContinuation)
    else
      let st := { st with isCompressed := (h.rsv == 4) && cfg.enableCompression,
                          lastOpCode := h.opcode }
      if h.fin then
        if st.isCompressed then
          match decomp payload cfg.maxFrameSize with
          | none => (st, none, some .decompressFailed)
          | some d => (st, some (d, h.opcode, true), none)
        else (st, some (payload, h.opcode, false), none)
      else ({ st with buffer := some payload }, none, none)
  | some buf =>
    if h.opcode ≠ 0 then ({ st with buffer := none }, none, some .expectedContinuation)
    else if 0 < cfg.maxFrameSize ∧ cfg.maxFrameSize < (buf.length : Int) + payload.length then
      ({ st with buffer := none }, none, some .messageTooLarge)
    else if h.fin then
      if st.isCompressed then
        match decomp (buf ++ payload) cfg.maxFrameSize with
        | none => ({ st with buffer := none }, none, some .decompressFailed)
        | some d => ({ st with buffer := none }, some (d, st.lastOpCode, true), none)
      else ({ st with buffer := none }, some (buf ++ payload, st.lastOpCode, true), none)
    else ({ st with buffer := some (buf ++ payload) }, none, none)

/-- Feed a sequence of data frames to the assembler (the data-frame branch of
`processFrame` in handler.go delivers each completed message to
`OnMessage`); collects the delivered `(payload, opcode)` messages, stopping
at the first assembler error as the handler does. -/
def runAsm (decomp : Bytes → Int → Option Bytes) (cfg : WSConfig) :
    AsmState → List (WSHeader × Bytes) → List (Bytes × Nat) × Option AsmErr
  | _, [] => ([], none)
  | st, (h, p) :: rest =>
    match processFrame decomp cfg st h p with
    | (st', dlv, none) =>
      let r := runAsm decomp cfg st' rest
      ((match dlv with
        | some d => [(d.1, d.2.1)]
        | none => []) ++ r.1, r.2)
    | (_, _, some e) => ([], some e)

end Hon.WS

namespace Hon.Engine

open Hon.Parser (Bytes)

open Hon.Adaptor

/-- The mutual-exclusion invariant for the `Processing` flag: at most one
worker is inside the state machine, and none when the flag is clear. -/
def lockInv (s : LockState) : Prop :=
  s.inCrit.length ≤ 1 ∧ (s.processing = false → s.inCrit = [])

end Hon.Engine

namespace Hon.Adaptor

open Hon.Parser (Bytes)

/-- A `ResponseWriter` that has been hijacked (and nothing else). -/
def hijackedRW : RW := { newResponseWriter with hijacked := true }

/-- A fresh writer on which the user pre-set `Transfer-Encoding: gzip`. -/
def teGzipRW : RW := { newResponseWriter with header := [("Transfer-Encoding", "gzip")] }

/-- A writer mid-response: headers sent, chunked, with pending bytes. -/
def midChunkedRW : RW :=
  { newResponseWriter with headerSent := true, chunked := true, buf := [53], sent := [54] }

end Hon.Adaptor

namespace Hon.Engine

open Hon.Parser (Bytes)

open Hon.Adaptor

/-- The writer state produced by the panic branch before headers were sent:
status 500 (`WriteHeader`) and `Content-Length: 0` (`EndResponse`). -/
def panic500Writer (w : RW) : RW :=
  { w with statusCode := 500, header := hdrSet w.header "Content-Length" "0" }

end Hon.Engine

/-! Theorems. -/

namespace Hon.Parser

theorem bIndex_bound {pat : Bytes} :
    ∀ {xs : Bytes} {i : Nat}, bIndex xs pat = some i → i + pat.length ≤ xs.length := by
  intro xs
  induction xs with
  | nil =>
    intro i h
    rw [bIndex] at h
    split at h
    · next hp =>
      cases h
      simpa using (List.isPrefixOf_iff_prefix.mp hp).length_le
    · simp at h
  | cons x t ih =>
    intro i h
    rw [bIndex] at h
    split at h
    · next hp =>
      cases h
      simpa using (List.isPrefixOf_iff_prefix.mp hp).length_le
    · simp only [Option.map_eq_some'] at h
      obtain ⟨j, hj, rfl⟩ := h
      have := ih hj
      simp only [List.length_cons]
      omega

theorem prefix_of_prefix_append {pat l q : Bytes}
    (h : pat <+: l ++ q) (hl : pat.length ≤ l.length) : pat <+: l := by
  have h1 : pat = (l ++ q).take pat.length := List.prefix_iff_eq_take.mp h
  rw [List.take_append_of_le_length hl] at h1
  exact h1 ▸ List.take_prefix _ _

theorem bIndex_append {pat q : Bytes} :
    ∀ {xs : Bytes} {i : Nat}, bIndex xs pat = some i → bIndex (xs ++ q) pat = some i := by
  intro xs
  induction xs with
  | nil =>
    intro i h
    rw [bIndex] at h
    split at h
    · next hp =>
      cases h
      have : pat = [] := List.prefix_nil.mp (List.isPrefixOf_iff_prefix.mp hp)
      subst this
      rw [bIndex.eq_def]
      simp [List.isPrefixOf]
    · simp at h
  | cons x t ih =>
    intro i h
    rw [bIndex] at h
    rw [List.cons_append, bIndex]
    split at h
    · next hp =>
      cases h
      rw [if_pos]
      exact List.isPrefixOf_iff_prefix.mpr
        ((List.isPrefixOf_iff_prefix.mp hp).trans (List.prefix_append _ _))
    · next hp =>
      simp only [Option.map_eq_some'] at h
      obtain ⟨j, hj, rfl⟩ := h
      have hlen : pat.length ≤ t.length := by
        have := bIndex_bound hj
        omega
      rw [if_neg]
      · simp only [Option.map_eq_some']
        exact ⟨j, ih hj, rfl⟩
      · intro hcon
        apply hp
        have hpre : pat <+: (x :: t) ++ q := by
          simpa using List.isPrefixOf_iff_prefix.mp hcon
        exact List.isPrefixOf_iff_prefix.mpr
          (prefix_of_prefix_append hpre (by simpa using Nat.le_succ_of_le hlen))

theorem walkChunks_consumed_le (bd : Bytes) (hbs : Nat) :
    ∀ (fuel offset : Nat), offset ≤ bd.length →
      ∀ {r : CheckResult}, walkChunks bd hbs fuel offset = some r → r.complete = true →
      r.bytesConsumed ≤ (hbs : Int) + bd.length := by
  intro fuel
  induction fuel with
  | zero => intro offset _ r h _; simp [walkChunks] at h
  | succ f ih =>
    intro offset hoff r h hc
    rw [walkChunks] at h
    split at h
    · cases h; simp at hc
    · next idx heq =>
      have hidx : idx + 2 ≤ bd.length - offset := by
        simpa using bIndex_bound heq
      split at h
      · cases h; simp at hc
      · next chunkSize hph =>
        split at h
        · split at h
          · cases h; simp at hc
          · next te heq2 =>
            cases h
            have hte : te + 2 ≤ bd.length - (offset + idx + 2) := by
              simpa using bIndex_bound heq2
            simp only [CheckResult.bytesConsumed]
            push_cast
            omega
        · split at h
          · cases h; simp at hc
          · split at h
            · simp at h
            · next hno =>
              push_neg at hno
              exact ih _ (Int.toNat_le.mpr hno.2) h hc

theorem walkChunks_mono (bd : Bytes) (hbs : Nat) :
    ∀ (fuel fuel' offset : Nat) {r : CheckResult}, fuel ≤ fuel' →
      walkChunks bd hbs fuel offset = some r → walkChunks bd hbs fuel' offset = some r := by
  intro fuel
  induction fuel with
  | zero => intro fuel' offset r _ h; simp [walkChunks] at h
  | succ f ih =>
    intro fuel' offset r hle h
    obtain ⟨f', rfl⟩ : ∃ f'', fuel' = f'' + 1 := ⟨fuel' - 1, by omega⟩
    rw [walkChunks] at h ⊢
    split at h
    · exact h
    · split at h
      · exact h
      · split at h
        · next hcs0 => rw [if_pos hcs0]; exact h
        · next hcs0 =>
          rw [if_neg hcs0]
          split at h
          · next hguard => rw [if_pos hguard]; exact h
          · next hguard =>
            rw [if_neg hguard]
            split at h
            · simp at h
            · next hno =>
              rw [if_neg hno]
              exact ih f' _ (by omega) h

theorem walkChunks_extend (bd q : Bytes) (hbs : Nat) :
    ∀ (fuel offset : Nat), offset ≤ bd.length →
      ∀ {r : CheckResult}, walkChunks bd hbs fuel offset = some r → r.complete = true →
      walkChunks (bd ++ q) hbs fuel offset = some r := by
  intro fuel
  induction fuel with
  | zero => intro offset _ r h _; simp [walkChunks] at h
  | succ f ih =>
    intro offset hoff r h hc
    rw [walkChunks] at h ⊢
    have hdropq : (bd ++ q).drop offset = bd.drop offset ++ q :=
      List.drop_append_of_le_length hoff
    cases heq : bIndex (bd.drop offset) crlf with
    | none => simp only [heq] at h; cases h; simp at hc
    | some idx =>
      have heq' : bIndex ((bd ++ q).drop offset) crlf = some idx := by
        rw [hdropq]; exact bIndex_append heq
      simp only [heq] at h
      simp only [heq']
      have hidx : idx + 2 ≤ bd.length - offset := by
        simpa using bIndex_bound heq
      have hcl : chunkLine (bd ++ q) offset idx = chunkLine bd offset idx := by
        unfold chunkLine
        rw [hdropq, List.take_append_of_le_length (by simp; omega)]
      rw [hcl]
      cases hph : parseHexIntGo (chunkLine bd offset idx) with
      | none => simp only [hph] at h; cases h; simp at hc
      | some chunkSize =>
        simp only [hph] at h ⊢
        have hoff2 : offset + idx + 2 ≤ bd.length := by omega
        by_cases hcs0 : chunkSize = 0
        · rw [if_pos hcs0] at h ⊢
          have hdropq2 : (bd ++ q).drop (offset + idx + 2) = bd.drop (offset + idx + 2) ++ q :=
            List.drop_append_of_le_length hoff2
          cases heq2 : bIndex (bd.drop (offset + idx + 2)) crlf with
          | none => simp only [heq2] at h; cases h; simp at hc
          | some te =>
            have heq2' : bIndex ((bd ++ q).drop (offset + idx + 2)) crlf = some te := by
              rw [hdropq2]; exact bIndex_append heq2
            simp only [heq2] at h
            simp only [heq2']
            exact h
        · rw [if_neg hcs0] at h ⊢
          by_cases hguard :
              ((bd.length - (offset + idx + 2) : Nat) : Int) < wrap64 (chunkSize + 2)
          · rw [if_pos hguard] at h; cases h; simp at hc
          · rw [if_neg hguard] at h
            have hguard' :
                ¬ (((bd ++ q).length - (offset + idx + 2) : Nat) : Int) < wrap64 (chunkSize + 2) := by
              rw [Int.not_lt] at hguard ⊢
              refine le_trans hguard ?_
              have hmono : bd.length - (offset + idx + 2) ≤ (bd ++ q).length - (offset + idx + 2) := by
                simp only [List.length_append]; omega
              exact_mod_cast hmono
            rw [if_neg hguard']
            by_cases hno :
                wrap64 ((offset + idx + 2 : Nat) + wrap64 (chunkSize + 2)) < 0 ∨
                  (bd.length : Int) < wrap64 ((offset + idx + 2 : Nat) + wrap64 (chunkSize + 2))
            · rw [if_pos hno] at h; simp at h
            · rw [if_neg hno] at h
              push_neg at hno
              have hno' :
                  ¬ (wrap64 ((offset + idx + 2 : Nat) + wrap64 (chunkSize + 2)) < 0 ∨
                    ((bd ++ q).length : Int) <
                      wrap64 ((offset + idx + 2 : Nat) + wrap64 (chunkSize + 2))) := by
                push_neg
                refine ⟨hno.1, le_trans hno.2 ?_⟩
                simp only [List.length_append]
                push_cast
                omega
              rw [if_neg hno']
              exact ih _ (Int.toNat_le.mpr hno.2) h hc

theorem checkRequest_consumed_le {p : Bytes} {r : CheckResult}
    (h : checkRequest p = some r) (hc : r.complete = true) :
    r.bytesConsumed ≤ (p.length : Int) := by
  rw [checkRequest] at h
  split at h
  · cases h; simp at hc
  · next hIdx hhe =>
    have hb4 : hIdx + 4 ≤ p.length := by simpa [headerEnd] using bIndex_bound hhe
    split at h
    · cases h; simp at hc
    · next idx hcr =>
      split at h
      · have hle := walkChunks_consumed_le (p.drop (hIdx + 4)) (hIdx + 4) _ 0
          (by omega) h hc
        refine le_trans hle ?_
        simp only [List.length_drop]
        push_cast
        omega
      · split at h
        · split at h
          · next hlen =>
            cases h
            simpa using hlen
          · cases h; simp at hc
        · cases h
          simp only [CheckResult.bytesConsumed]
          exact_mod_cast by omega

theorem checkRequest_extend (q : Bytes) {p : Bytes} {r : CheckResult}
    (h : checkRequest p = some r) (hc : r.complete = true) :
    checkRequest (p ++ q) = some r := by
  rw [checkRequest] at h ⊢
  cases hhe : bIndex p headerEnd with
  | none => simp only [hhe] at h; cases h; simp at hc
  | some hIdx =>
    simp only [hhe] at h
    have hb4 : hIdx + 4 ≤ p.length := by simpa [headerEnd] using bIndex_bound hhe
    have hhe' : bIndex (p ++ q) headerEnd = some hIdx := bIndex_append hhe
    simp only [hhe']
    have htake : (p ++ q).take hIdx = p.take hIdx :=
      List.take_append_of_le_length (by omega)
    rw [htake]
    cases hcr : bIndex (p.take hIdx) crlf with
    | none => simp only [hcr] at h; cases h; simp at hc
    | some idx =>
      simp only [hcr] at h
      simp only [hcr]
      have hscan : headerScan (p ++ q) hIdx idx = headerScan p hIdx idx := by
        unfold headerScan
        rw [htake]
      rw [hscan]
      by_cases hch : (headerScan p hIdx idx).2
      · rw [if_pos hch] at h ⊢
        have hdrop : (p ++ q).drop (hIdx + 4) = p.drop (hIdx + 4) ++ q :=
          List.drop_append_of_le_length hb4
        rw [hdrop]
        exact walkChunks_mono _ _ _ _ _ (by simp)
          (walkChunks_extend (p.drop (hIdx + 4)) q (hIdx + 4) _ 0 (by omega) h hc)
      · rw [if_neg hch] at h ⊢
        by_cases hcl0 : 0 ≤ (headerScan p hIdx idx).1
        · rw [if_pos hcl0] at h ⊢
          by_cases hlen :
              wrap64 ((hIdx + 4 : Nat) + (headerScan p hIdx idx).1) ≤ (p.length : Int)
          · rw [if_pos hlen] at h
            rw [if_pos (le_trans hlen (by simp))]
            exact h
          · rw [if_neg hlen] at h; cases h; simp at hc
        · rw [if_neg hcl0] at h ⊢
          exact h

theorem checkRequest_of_no_terminator {data : Bytes} (h : bIndex data headerEnd = none) :
    checkRequest data = some ⟨false, 0, false⟩ := by
  rw [checkRequest]
  simp only [h]

theorem bIndex_replicate65 : ∀ n : Nat, bIndex (List.replicate n 65) headerEnd = none := by
  intro n
  induction n with
  | zero => decide
  | succ n ih =>
    rw [List.replicate_succ, bIndex, if_neg (by simp [headerEnd, List.isPrefixOf]), ih]
    rfl

/-- C1: for every byte prefix `p` on which `CheckRequest` reports `Complete`,
the reported `BytesConsumed` is at most `len(p)`, and for every suffix `q`,
`CheckRequest (p ++ q)` reports the same complete result (same `BytesConsumed`):
the completion decision and consumed length are stable under extension. -/
theorem C1_framer_complete_stable_under_extension (p q : Bytes) (r : CheckResult)
    (h : checkRequest p = some r) (hc : r.complete = true) :
    r.bytesConsumed ≤ (p.length : Int) ∧ checkRequest (p ++ q) = some r :=
  ⟨checkRequest_consumed_le h hc, checkRequest_extend q h hc⟩

/-- Witness for C1 at the concrete request `"GET / HTTP/1.1\r\nHost: x\r\n\r\n"`
and suffix `[88]`. -/
theorem C1_framer_complete_stable_under_extension_witness :
    (⟨true, 27, false⟩ : CheckResult).bytesConsumed ≤ (sampleKeepAliveReq.length : Int) ∧
      checkRequest (sampleKeepAliveReq ++ [88]) = some ⟨true, 27, false⟩ :=
  C1_framer_complete_stable_under_extension sampleKeepAliveReq [88] ⟨true, 27, false⟩
    (by decide) (by decide)

/-- C2 counterexample: on the spec's chunked request bytes, `CheckRequest`
reports `Complete` with `BytesConsumed = 62` (the full input length), not 64
as the claim states. -/
theorem C2_chunked_consumed_counterexample :
    checkRequest chunkedReqBytes = some ⟨true, 62, false⟩ ∧
      (checkRequest chunkedReqBytes).map CheckResult.bytesConsumed ≠ some 64 := by
  exact ⟨by decide, by decide⟩

/-- C2 (amended): on the exact bytes
`"POST / HTTP/1.1\r\nTransfer-Encoding: chunked\r\n\r\n5\r\nHello\r\n0\r\n\r\n"`,
`CheckRequest` reports `Complete` with `BytesConsumed = 62`; truncated after
`"5\r\nHello\r\n"` it reports `Incomplete`. -/
theorem C2_chunked_consumed_amended :
    checkRequest chunkedReqBytes = some ⟨true, 62, false⟩ ∧
      checkRequest chunkedReqTruncBytes = some ⟨false, 0, false⟩ := by
  exact ⟨by decide, by decide⟩

/-- C3 counterexample: a 9000-byte prefix (over the claimed 8 KiB cap) with no
CRLF CRLF terminator is reported `Incomplete` with no error — `CheckRequest`
never returns `Malformed` for an oversized header section. -/
theorem C3_no_header_cap_counterexample :
    8192 < (List.replicate 9000 65 : Bytes).length ∧
      checkRequest (List.replicate 9000 65) = some ⟨false, 0, false⟩ :=
  ⟨by rw [List.length_replicate]; omega, checkRequest_of_no_terminator (bIndex_replicate65 9000)⟩

/-- C3 (amended): `CheckRequest` enforces no header-size cap: for every input
with no CRLF CRLF terminator it reports `Incomplete` (no error), regardless of
the input's size. -/
theorem C3_no_header_cap_amended (data : Bytes) (h : bIndex data headerEnd = none) :
    checkRequest data = some ⟨false, 0, false⟩ :=
  checkRequest_of_no_terminator h

/-- Witness for the amended C3 at the concrete bytes `"ABC"`. -/
theorem C3_no_header_cap_amended_witness :
    checkRequest [65, 66, 67] = some ⟨false, 0, false⟩ :=
  C3_no_header_cap_amended [65, 66, 67] (by decide)

theorem scanHeaders_single_cl_line (v : Bytes) (cl : Int) (ch : Bool)
    (hv : v ≠ []) (hnc : bIndex (headerCL ++ v) crlf = none) :
    scanHeaders ((headerCL ++ v).length + 1) (headerCL ++ v) cl ch =
      match parseIntGo (trimSpace v) with
      | some n => (n, ch)
      | none => (cl, ch) := by
  have hlen : (headerCL ++ v).length = (14 + v.length) + 1 := by
    simp [headerCL]
    omega
  rw [scanHeaders]
  · simp only [hnc]
    rw [if_pos]
    · rw [List.drop_left, hlen]
      cases hp : parseIntGo (trimSpace v) with
      | none => simp only [hp]; rw [scanHeaders]
      | some n => simp only [hp]; rw [scanHeaders]
    · refine ⟨?_, ?_⟩
      · simp only [List.length_append]
        have := List.length_pos.mpr hv
        simp [headerCL]
        omega
      · rw [List.take_left]
        decide
  · simp [headerCL]

theorem checkRequest_scan_negative_cl {data : Bytes} {hIdx idx : Nat}
    (hhe : bIndex data headerEnd = some hIdx)
    (hcr : bIndex (data.take hIdx) crlf = some idx)
    (hch : (headerScan data hIdx idx).2 = false)
    (hcl : (headerScan data hIdx idx).1 < 0) :
    checkRequest data = some ⟨true, ((hIdx + 4 : Nat) : Int), false⟩ := by
  rw [checkRequest]
  simp only [hhe, hcr]
  rw [if_neg (by simp [hch]), if_neg (by omega)]

/-- C10: an unparseable or negative `Content-Length` value is silently ignored.
Parts: (1) scanning a final `Content-Length:` header line whose value fails
`parseInt` leaves `contentLength` unchanged; (2) a value parsing to `n` sets
`contentLength := n`, so a negative value leaves it negative; (3) whenever the
scan ends with `contentLength < 0` and chunking off, `CheckRequest` reports
`Complete` with `BytesConsumed` = header terminator position + 4 (no body);
(4,5) `parseInt` facts: `" -5"` parses to `-5`, `" abc"` fails; (6,7) end to
end: requests with `Content-Length: -5` / `Content-Length: abc` are `Complete`
at the end of the header section, with no error. -/
theorem C10_invalid_content_length_ignored :
    (∀ (v : Bytes) (cl : Int) (ch : Bool), v ≠ [] → bIndex (headerCL ++ v) crlf = none →
        parseIntGo (trimSpace v) = none →
        scanHeaders ((headerCL ++ v).length + 1) (headerCL ++ v) cl ch = (cl, ch)) ∧
    (∀ (v : Bytes) (n cl : Int) (ch : Bool), v ≠ [] → bIndex (headerCL ++ v) crlf = none →
        parseIntGo (trimSpace v) = some n →
        scanHeaders ((headerCL ++ v).length + 1) (headerCL ++ v) cl ch = (n, ch)) ∧
    (∀ (data : Bytes) (hIdx idx : Nat), bIndex data headerEnd = some hIdx →
        bIndex (data.take hIdx) crlf = some idx →
        (headerScan data hIdx idx).2 = false → (headerScan data hIdx idx).1 < 0 →
        checkRequest data = some ⟨true, ((hIdx + 4 : Nat) : Int), false⟩) ∧
    parseIntGo (trimSpace [32, 45, 53]) = some (-5) ∧
    parseIntGo (trimSpace [32, 97, 98, 99]) = none ∧
    checkRequest negCLReqBytes = some ⟨true, 39, false⟩ ∧
    checkRequest badCLReqBytes = some ⟨true, 40, false⟩ := by
  refine ⟨?_, ?_, ?_, by decide, by decide, by decide, by decide⟩
  · intro v cl ch hv hnc hp
    rw [scanHeaders_single_cl_line v cl ch hv hnc, hp]
  · intro v n cl ch hv hnc hp
    rw [scanHeaders_single_cl_line v cl ch hv hnc, hp]
  · intro data hIdx idx hhe hcr hch hcl
    exact checkRequest_scan_negative_cl hhe hcr hch hcl

/-- Witness for C10: the quantified parts applied at `v = "abc"`, `v = " -5"`
and the concrete `Content-Length: -5` request. -/
theorem C10_invalid_content_length_ignored_witness :
    scanHeaders ((headerCL ++ [97, 98, 99]).length + 1) (headerCL ++ [97, 98, 99])
        (-1) false = (-1, false) ∧
    scanHeaders ((headerCL ++ [32, 45, 53]).length + 1) (headerCL ++ [32, 45, 53])
        (-1) false = (-5, false) ∧
    checkRequest negCLReqBytes = some ⟨true, ((35 + 4 : Nat) : Int), false⟩ :=
  ⟨C10_invalid_content_length_ignored.1 [97, 98, 99] (-1) false (by decide) (by decide)
      (by decide),
   C10_invalid_content_length_ignored.2.1 [32, 45, 53] (-5) (-1) false (by decide) (by decide)
      (by decide),
   C10_invalid_content_length_ignored.2.2.1 negCLReqBytes 35 15 (by decide) (by decide)
      (by decide) (by decide)⟩

end Hon.Parser

namespace Hon.Adaptor

open Hon.Parser (Bytes)

theorem hdrGet_hdrSet_self (h : Header) (k v : String) : hdrGet (hdrSet h k v) k = v := by
  simp [hdrGet, hdrSet, List.find?]

theorem hdrGet_hdrSet_of_ne (h : Header) {k k' : String} (v : String) (hne : k' ≠ k) :
    hdrGet (hdrSet h k v) k' = hdrGet h k' := by
  simp only [hdrGet, hdrSet]
  rw [List.find?]
  have : ((k, v).1 == k') = false := by
    simp only [beq_eq_false_iff_ne, ne_eq]
    exact fun hkk => hne hkk.symm
  rw [this]
  congr 1
  induction h with
  | nil => rfl
  | cons a t ih =>
    by_cases hk : a.1 = k
    · rw [List.filter]
      simp only [hk, bne_self_eq_false]
      rw [ih, List.find?]
      have : (a.1 == k') = false := by
        simp only [beq_eq_false_iff_ne, ne_eq, hk]
        exact fun hkk => hne hkk.symm
      rw [this]
    · rw [List.filter]
      have hbne : (a.1 != k) = true := by simpa using hk
      rw [hbne]
      rw [List.find?, List.find?]
      by_cases hk' : a.1 == k'
      · rw [hk']
      · simp only [Bool.not_eq_true] at hk'
        rw [hk', ih]

end Hon.Adaptor

namespace Hon.Engine

open Hon.Parser (Bytes)

open Hon.Adaptor

/-- C6: the keep-alive drain reads at most `MaxDrainSize + 1` bytes of unread
body; exactly `maxDrain` unread bytes leave the connection alive (absent any
other close condition), while `maxDrain + 1` or more unread bytes force the
connection closed; the engine's cap constant is 64 KiB. -/
theorem C6_drain_cap_boundary (remaining maxDrain : Nat) :
    (drainStep remaining maxDrain false).1 ≤ maxDrain + 1 ∧
    (remaining = maxDrain →
      (drainStep remaining maxDrain false).1 = maxDrain ∧
      keepAliveDecision (drainStep remaining maxDrain false).2 false = true) ∧
    (maxDrain + 1 ≤ remaining →
      keepAliveDecision (drainStep remaining maxDrain false).2 false = false) ∧
    MaxDrainSize = 65536 := by
  refine ⟨?_, ?_, ?_, rfl⟩
  · simp [drainStep]
  · intro hr
    subst hr
    constructor
    · simp [drainStep]
    · simp [drainStep, keepAliveDecision]
  · intro hr
    have hmin : min remaining (maxDrain + 1) = maxDrain + 1 := by omega
    simp [drainStep, keepAliveDecision, hmin]

/-- Witness for C6 at `remaining = maxDrain = MaxDrainSize` and at
`remaining = MaxDrainSize + 1`. -/
theorem C6_drain_cap_boundary_witness :
    ((drainStep MaxDrainSize MaxDrainSize false).1 = MaxDrainSize ∧
      keepAliveDecision (drainStep MaxDrainSize MaxDrainSize false).2 false = true) ∧
    keepAliveDecision (drainStep (MaxDrainSize + 1) MaxDrainSize false).2 false = false :=
  ⟨(C6_drain_cap_boundary MaxDrainSize MaxDrainSize).2.1 rfl,
   (C6_drain_cap_boundary (MaxDrainSize + 1) MaxDrainSize).2.2.1 (by omega)⟩

theorem lockStep_inv {s s' : LockState} {e : LockEvent}
    (hinv : lockInv s) (h : lockStep s e = some s') : lockInv s' := by
  cases e with
  | acquire wid =>
    rw [lockStep] at h
    split at h
    · cases h; exact hinv
    · next hp =>
      cases h
      have : s.inCrit = [] := hinv.2 (by simpa using hp)
      constructor
      · simp [this]
      · intro hfalse
        simp at hfalse
  | release wid =>
    rw [lockStep] at h
    split at h
    · next hmem =>
      cases h
      have hone : s.inCrit.length ≤ 1 := hinv.1
      have hsingle : s.inCrit = [wid] := by
        cases hcrit : s.inCrit with
        | nil => simp [hcrit] at hmem
        | cons a t =>
          have hlen : (a :: t).length ≤ 1 := hcrit ▸ hone
          have ht : t = [] := by
            cases t with
            | nil => rfl
            | cons b u => simp at hlen
          subst ht
          have ha : wid = a := by
            have : wid ∈ [a] := hcrit ▸ hmem
            simpa using this
          simp [ha]
      simp [lockInv, hsingle]
    · simp at h

theorem lockRun_inv :
    ∀ (evs : List LockEvent) {s s' : LockState},
      lockInv s → lockRun s evs = some s' → lockInv s' := by
  intro evs
  induction evs with
  | nil => intro s s' hinv h; rw [lockRun] at h; cases h; exact hinv
  | cons e es ih =>
    intro s s' hinv h
    rw [lockRun] at h
    split at h
    · simp at h
    · next s1 hstep => exact ih (lockStep_inv hinv hstep) h

/-- C9: along every event sequence of the `Processing`-flag protocol
(CAS-acquire on entry, store-release on exit, including the double-check
release/re-acquire), at most one worker is ever inside the connection state
machine, and none while the flag is clear. -/
theorem C9_processing_flag_mutual_exclusion (evs : List LockEvent) (s : LockState)
    (h : lockRun lockInit evs = some s) :
    s.inCrit.length ≤ 1 ∧ (s.processing = false → s.inCrit = []) :=
  lockRun_inv evs ⟨by simp [lockInit], fun _ => rfl⟩ h

/-- Witness for C9: worker 1 acquires, worker 2's CAS fails, worker 1
releases (double check), worker 2 re-acquires. -/
theorem C9_processing_flag_mutual_exclusion_witness :
    lockRun lockInit
        [LockEvent.acquire 1, LockEvent.acquire 2, LockEvent.release 1, LockEvent.acquire 2] =
      some ⟨true, [2]⟩ ∧
    (⟨true, [2]⟩ : LockState).inCrit.length ≤ 1 :=
  ⟨by decide,
   (C9_processing_flag_mutual_exclusion
      [LockEvent.acquire 1, LockEvent.acquire 2, LockEvent.release 1, LockEvent.acquire 2]
      ⟨true, [2]⟩ (by decide)).1⟩

end Hon.Engine

namespace Hon.Adaptor

open Hon.Parser (Bytes)

/-- C7 counterexample: after a hijack, `EndResponse` returns `nil`, not the
fixed "hijacked" error (`WriteHeader` and `Flush` are void in Go and cannot
return an error at all); so not every writer method returns the fixed
error. -/
theorem C7_hijacked_errors_counterexample :
    hijackedRW.hijacked = true ∧
    endResponse hijackedRW = (hijackedRW, none) ∧
    (endResponse hijackedRW).2 ≠ some WErr.hijacked := by
  refine ⟨rfl, by decide, by decide⟩

/-- C7 (amended): once hijacked, `Write`, `WriteString` and `ReadFrom` return
`http.ErrHijacked` and write nothing; `WriteHeader` and `Flush` are no-ops
(void in Go); `EndResponse` returns `nil` and writes nothing. -/
theorem C7_hijacked_writer_methods (w : RW) (hw : w.hijacked = true) :
    (∀ (detect : Hon.Parser.Bytes → String) (p : Hon.Parser.Bytes),
      write detect w p = (w, 0, some WErr.hijacked)) ∧
    (∀ s : String, writeString w s = (w, 0, some WErr.hijacked)) ∧
    (∀ chunks : List Hon.Parser.Bytes, readFrom w chunks = (w, 0, some WErr.hijacked)) ∧
    (∀ code : Int, writeHeader w code = w) ∧
    flush w = w ∧
    endResponse w = (w, none) := by
  refine ⟨?_, ?_, ?_, ?_, ?_, ?_⟩
  · intro detect p; rw [write, if_pos (by simp [hw])]
  · intro s; rw [writeString, if_pos (by simp [hw])]
  · intro chunks; rw [readFrom, if_pos (by simp [hw])]
  · intro code; rw [writeHeader, if_pos (Or.inl hw)]
  · rw [flush, if_pos (by simp [hw])]
  · rw [endResponse, if_pos (by simp [hw])]

/-- Witness for the amended C7 at the concrete hijacked writer. -/
theorem C7_hijacked_writer_methods_witness :
    write (fun _ => "text/plain") hijackedRW [104, 105] = (hijackedRW, 0, some WErr.hijacked) ∧
    flush hijackedRW = hijackedRW ∧
    endResponse hijackedRW = (hijackedRW, none) :=
  ⟨(C7_hijacked_writer_methods hijackedRW rfl).1 _ _,
   (C7_hijacked_writer_methods hijackedRW rfl).2.2.2.2.1,
   (C7_hijacked_writer_methods hijackedRW rfl).2.2.2.2.2⟩

end Hon.Adaptor

namespace Hon.WS

open Hon.Parser (Bytes)

theorem runAsm_continuation_frames (decomp : Bytes → Int → Option Bytes) (cfg : WSConfig)
    (op0 : Nat) :
    ∀ (mids : List (WSHeader × Bytes)) (acc : Bytes) (lastH : WSHeader) (lastP : Bytes),
      (∀ f ∈ mids, f.1.opcode = 0 ∧ f.1.fin = false) →
      lastH.opcode = 0 → lastH.fin = true →
      (0 < cfg.maxFrameSize →
        (acc.length : Int) + (((mids.map fun f => f.2.length).sum : Nat) + lastP.length) ≤
          cfg.maxFrameSize) →
      runAsm decomp cfg ⟨some acc, false, op0⟩ (mids ++ [(lastH, lastP)]) =
        ([(acc ++ ((mids.map fun f => f.2).flatten ++ lastP), op0)], none) := by
  intro mids
  induction mids with
  | nil =>
    intro acc lastH lastP _ hop hfin hsize
    have hpf : processFrame decomp cfg ⟨some acc, false, op0⟩ lastH lastP =
        (⟨none, false, op0⟩, some (acc ++ lastP, op0, true), none) := by
      simp only [processFrame]
      rw [if_neg (by simp [hop]), if_neg ?_, if_pos hfin]
      · rfl
      · rintro ⟨hpos, hlt⟩
        have := hsize hpos
        simp only [List.map_nil, List.sum_nil] at this
        push_cast at this hlt
        omega
    rw [List.nil_append, runAsm]
    simp only [hpf]
    rw [runAsm]
    simp
  | cons fp mids' ih =>
    intro acc lastH lastP hmids hop hfin hsize
    obtain ⟨h₁, p₁⟩ := fp
    have hf1 : h₁.opcode = 0 := (hmids (h₁, p₁) (by simp)).1
    have hf2 : h₁.fin = false := (hmids (h₁, p₁) (by simp)).2
    have hsum : (((h₁, p₁) :: mids').map fun f => f.2.length).sum
        = p₁.length + (mids'.map fun f => f.2.length).sum := by simp
    have hpf : processFrame decomp cfg ⟨some acc, false, op0⟩ h₁ p₁ =
        (⟨some (acc ++ p₁), false, op0⟩, none, none) := by
      simp only [processFrame]
      rw [if_neg (by simp [hf1]), if_neg ?_, if_neg (by simp [hf2])]
      · rintro ⟨hpos, hlt⟩
        have hs := hsize hpos
        rw [hsum] at hs
        omega
    rw [List.cons_append, runAsm]
    simp only [hpf]
    rw [ih (acc ++ p₁) lastH lastP (fun f hfm => hmids f (by simp [hfm])) hop hfin ?_]
    · simp [List.append_assoc]
    · intro hpos
      have hs := hsize hpos
      rw [hsum] at hs
      rw [List.length_append]
      omega

/-- C8: a fragmented uncompressed message — a first data frame with `FIN = 0`
and a non-`Continuation` opcode, then continuation frames, the last with
`FIN = 1` — is delivered by the assembler exactly once, with payload the
concatenation of the fragments' payloads in arrival order and the opcode of
the first frame (provided the accumulated size stays within a positive
`MaxFrameSize` cap); a first frame whose opcode is `Continuation` instead
yields the unexpected-continuation error with nothing delivered. -/
theorem C8_assembler_fragmented_delivery :
    (∀ (decomp : Bytes → Int → Option Bytes) (cfg : WSConfig) (firstH : WSHeader)
        (firstP : Bytes) (mids : List (WSHeader × Bytes)) (lastH : WSHeader) (lastP : Bytes),
      firstH.opcode ≠ 0 → firstH.fin = false →
      ((firstH.rsv == 4) && cfg.enableCompression) = false →
      (∀ f ∈ mids, f.1.opcode = 0 ∧ f.1.fin = false) →
      lastH.opcode = 0 → lastH.fin = true →
      (0 < cfg.maxFrameSize →
        (firstP.length : Int) + (((mids.map fun f => f.2.length).sum : Nat) + lastP.length) ≤
          cfg.maxFrameSize) →
      runAsm decomp cfg initAsm ((firstH, firstP) :: (mids ++ [(lastH, lastP)])) =
        ([(firstP ++ ((mids.map fun f => f.2).flatten ++ lastP), firstH.opcode)], none)) ∧
    (∀ (decomp : Bytes → Int → Option Bytes) (cfg : WSConfig) (h : WSHeader) (p : Bytes),
      h.opcode = 0 →
      processFrame decomp cfg initAsm h p = (initAsm, none, some AsmErr.unexpectedContinuation) ∧
      runAsm decomp cfg initAsm [(h, p)] = ([], some AsmErr.unexpectedContinuation)) := by
  constructor
  · intro decomp cfg firstH firstP mids lastH lastP hop1 hfin1 hcomp hmids hop hfin hsize
    have hpf : processFrame decomp cfg initAsm firstH firstP =
        (⟨some firstP, false, firstH.opcode⟩, none, none) := by
      simp only [processFrame, initAsm]
      rw [if_neg hop1, if_neg (by simp [hfin1])]
      simp [hcomp]
    rw [runAsm]
    simp only [hpf]
    rw [runAsm_continuation_frames decomp cfg firstH.opcode mids firstP lastH lastP
      hmids hop hfin hsize]
    simp
  · intro decomp cfg h p hop
    have hpf : processFrame decomp cfg initAsm h p =
        (initAsm, none, some AsmErr.unexpectedContinuation) := by
      simp only [processFrame, initAsm]
      rw [if_pos hop]
    refine ⟨hpf, ?_⟩
    rw [runAsm]
    simp only [hpf]

/-- Witness for C8: text frame `"He"` (`FIN=0`), continuation `"ll"`,
final continuation `"o"` — one delivery of `"Hello"` with the text opcode;
and a lone continuation first frame errors. -/
theorem C8_assembler_fragmented_delivery_witness :
    runAsm (fun _ _ => none) ⟨0, false⟩ initAsm
        [(⟨false, 0, 1⟩, [72, 101]), (⟨false, 0, 0⟩, [108, 108]), (⟨true, 0, 0⟩, [111])] =
      ([([72, 101, 108, 108, 111], 1)], none) ∧
    runAsm (fun _ _ => none) ⟨0, false⟩ initAsm [(⟨true, 0, 0⟩, [5])] =
      ([], some AsmErr.unexpectedContinuation) := by
  constructor
  · have h := C8_assembler_fragmented_delivery.1 (fun _ _ => none) ⟨0, false⟩
      ⟨false, 0, 1⟩ [72, 101] [(⟨false, 0, 0⟩, [108, 108])] ⟨true, 0, 0⟩ [111]
      (by decide) rfl (by decide) (by decide) rfl rfl
      (fun hpos => absurd hpos (by decide))
    simpa using h
  · exact (C8_assembler_fragmented_delivery.2 (fun _ _ => none) ⟨0, false⟩
      ⟨true, 0, 0⟩ [5] rfl).2

end Hon.WS

namespace Hon.Adaptor

open Hon.Parser (Bytes)

theorem ensureHeaderSent_of_not_sent (w : RW) (hhs : w.headerSent = false) :
    ensureHeaderSent w =
      { w with chunked := ensureChunked w, headerSent := true, buf := w.buf ++ ensureOut w } := by
  rw [ensureHeaderSent, if_neg (by simp [hhs])]

theorem write_first_byte_chunked (detect : Bytes → String) (w : RW) (p : Bytes)
    (hh : w.hijacked = false) (hhs : w.headerSent = false)
    (hCL : hdrGet w.header "Content-Length" = "") (hp : p ≠ []) :
    write detect w p =
      ({ sniffCT detect w p with
          chunked := true, headerSent := true,
          buf := w.buf ++ ensureOut (sniffCT detect w p) ++ chunkWrap p },
        p.length, none) := by
  have hsniffCL : hdrGet (sniffCT detect w p).header "Content-Length" = "" := by
    rw [sniffCT]
    split
    · rw [hdrGet_hdrSet_of_ne _ _ (by decide)]
      exact hCL
    · exact hCL
  have hsniffHS : (sniffCT detect w p).headerSent = false := by
    rw [sniffCT]; split <;> simp [hhs]
  have hsniffBuf : (sniffCT detect w p).buf = w.buf := by
    rw [sniffCT]; split <;> rfl
  have hch : ensureChunked (sniffCT detect w p) = true := by
    rw [ensureChunked, hsniffCL]; rfl
  rw [write, if_neg (by simp [hh]), if_neg (by simpa using hp), if_neg (by simp [hhs]),
    ensureHeaderSent_of_not_sent _ hsniffHS, writeBody]
  simp only [hch, hsniffBuf, if_true, List.append_assoc]

set_option maxRecDepth 8192 in
/-- C4 counterexample: with no `Content-Length` set but a user-set
`Transfer-Encoding: gzip`, the first non-empty write enters chunked mode yet
the emitted header block does not contain `Transfer-Encoding: chunked`
(the user's value is serialized instead), contradicting the claim for this
response. -/
theorem C4_implicit_chunked_counterexample :
    hdrGet teGzipRW.header "Content-Length" = "" ∧
    (write (fun _ => "text/plain") teGzipRW [104, 105]).1.chunked = true ∧
    ¬ (strB "Transfer-Encoding: chunked" <:+:
        (write (fun _ => "text/plain") teGzipRW [104, 105]).1.buf) := by
  refine ⟨rfl, by decide, by decide⟩

/-- C4 (amended): with no `Content-Length` set before the first non-empty
write, the writer enters chunked mode (`chunked` and `headerSent` set, the
write reported in full, the first write emitted as header block followed by
`hex(size) CRLF payload CRLF`); the header block contains the
`Transfer-Encoding: chunked` line provided the user set no `Transfer-Encoding`
header (otherwise the user's own value is serialized instead); every
subsequent non-empty write in chunked mode is wrapped as `hex(size) CRLF
payload CRLF`; and `EndResponse` appends the terminator `"0\r\n\r\n"` before
the final flush. -/
theorem C4_implicit_chunked_amended :
    (∀ (detect : Bytes → String) (w : RW) (p : Bytes),
      w.hijacked = false → w.headerSent = false → hdrGet w.header "Content-Length" = "" →
      p ≠ [] →
      (write detect w p).1.chunked = true ∧ (write detect w p).1.headerSent = true ∧
      (write detect w p).2 = (p.length, none) ∧
      (write detect w p).1.buf = w.buf ++ ensureOut (sniffCT detect w p) ++ chunkWrap p) ∧
    (∀ (detect : Bytes → String) (w : RW) (p : Bytes),
      hdrGet w.header "Content-Length" = "" → hdrGet w.header "Transfer-Encoding" = "" →
      ∃ pre, ensureOut (sniffCT detect w p) =
        pre ++ strB "Transfer-Encoding: chunked\r\n" ++ crlfB) ∧
    (∀ (detect : Bytes → String) (w : RW) (p : Bytes),
      w.hijacked = false → w.headerSent = true → w.chunked = true → p ≠ [] →
      write detect w p = ({ w with buf := w.buf ++ chunkWrap p }, p.length, none)) ∧
    (∀ w : RW, w.hijacked = false → w.headerSent = true → w.chunked = true →
      endResponse w = ({ w with sent := w.sent ++ w.buf ++ chunkEndB, buf := [] }, none)) := by
  refine ⟨?_, ?_, ?_, ?_⟩
  · intro detect w p hh hhs hCL hp
    rw [write_first_byte_chunked detect w p hh hhs hCL hp]
    exact ⟨rfl, rfl, rfl, by simp [List.append_assoc]⟩
  · intro detect w p hCL hTE
    have hsniffCL : hdrGet (sniffCT detect w p).header "Content-Length" = "" := by
      rw [sniffCT]
      split
      · rw [hdrGet_hdrSet_of_ne _ _ (by decide)]
        exact hCL
      · exact hCL
    have hsniffTE : hdrGet (sniffCT detect w p).header "Transfer-Encoding" = "" := by
      rw [sniffCT]
      split
      · rw [hdrGet_hdrSet_of_ne _ _ (by decide)]
        exact hTE
      · exact hTE
    have hch : ensureChunked (sniffCT detect w p) = true := by
      rw [ensureChunked, hsniffCL]; rfl
    refine ⟨strB (statusLine (sniffCT detect w p).statusCode) ++
      (if hdrGet (sniffCT detect w p).header "Date" = "" then
        strB "Date: " ++ strB currentDateModel ++ crlfB
       else []) ++ headerWriteBytes (sniffCT detect w p).header, ?_⟩
    have hcond : ensureChunked (sniffCT detect w p) = true ∧
        hdrGet (sniffCT detect w p).header "Transfer-Encoding" = "" := ⟨hch, hsniffTE⟩
    rw [ensureOut, if_pos hcond]
  · intro detect w p hh hhs hch hp
    rw [write, if_neg (by simp [hh]), if_neg (by simpa using hp), if_pos hhs, writeBody,
      if_pos hch]
  · intro w hh hhs hch
    rw [endResponse, if_neg (by simp [hh]), if_pos hhs, endFlush, if_pos hch]
    simp [List.append_assoc]

/-- Witness for the amended C4: a fresh writer receiving `"hi"`, and the
mid-response writer being finalized. -/
theorem C4_implicit_chunked_amended_witness :
    ((write (fun _ => "text/plain") newResponseWriter [104, 105]).1.chunked = true ∧
      (write (fun _ => "text/plain") newResponseWriter [104, 105]).1.headerSent = true ∧
      (write (fun _ => "text/plain") newResponseWriter [104, 105]).2 = (2, none) ∧
      (write (fun _ => "text/plain") newResponseWriter [104, 105]).1.buf =
        newResponseWriter.buf ++
          ensureOut (sniffCT (fun _ => "text/plain") newResponseWriter [104, 105]) ++
          chunkWrap [104, 105]) ∧
    endResponse midChunkedRW =
      ({ midChunkedRW with
          sent := midChunkedRW.sent ++ midChunkedRW.buf ++ chunkEndB,
          buf := [] }, none) :=
  ⟨C4_implicit_chunked_amended.1 (fun _ => "text/plain") newResponseWriter [104, 105]
      rfl rfl rfl (by decide),
   C4_implicit_chunked_amended.2.2.2 midChunkedRW rfl rfl rfl⟩

end Hon.Adaptor

namespace Hon.Engine

open Hon.Parser (Bytes)

open Hon.Adaptor

theorem handleRequest_panic_before_headers (run : RW → HOutcome) (w0 w1 : RW)
    (hrun : run w0 = HOutcome.panicked w1) (hhs : w1.headerSent = false)
    (hh : w1.hijacked = false) :
    handleRequest run w0 =
      ({ panic500Writer w1 with
          chunked := false,
          headerSent := true,
          buf := [],
          sent := w1.sent ++ (w1.buf ++ ensureOut (panic500Writer w1)) }, false, true) := by
  rw [handleRequest]
  simp only [hrun]
  rw [if_neg (by simp [hhs])]
  simp only [writeHeader, endResponse, ensureHeaderSent, endFlush, panic500Writer]
  simp [hh, hhs, ensureChunked, hdrGet_hdrSet_self, List.append_assoc]

/-- C5 counterexample: a handler that hijacks the connection and then panics.
`HeaderSent` is false, yet no 500 is written (`WriteHeader` and `EndResponse`
are no-ops on a hijacked writer): the claimed "if and only if" fails. -/
theorem C5_panic_500_counterexample :
    hijackedRW.headerSent = false ∧
    (handleRequest (fun w => HOutcome.panicked w) hijackedRW).1 = hijackedRW ∧
    ¬ (strB "500" <:+: (handleRequest (fun w => HOutcome.panicked w) hijackedRW).1.sent) := by
  refine ⟨rfl, by decide, by decide⟩

/-- C5 (amended): when the handler panics, `handleRequest` returns an error
and the connection is closed with nothing further sent; a 500 response is
written if and only if no response byte had been sent (`HeaderSent` false)
AND the connection had not been hijacked — after a hijack, nothing is
written even though `HeaderSent` is false. -/
theorem C5_panic_500_amended :
    (∀ (run : RW → HOutcome) (w0 w1 : RW), run w0 = HOutcome.panicked w1 →
      (handleRequest run w0).2.2 = true ∧ closesConnOnError false = true) ∧
    (∀ (run : RW → HOutcome) (w0 w1 : RW), run w0 = HOutcome.panicked w1 →
      w1.headerSent = false → w1.hijacked = false →
      (handleRequest run w0).1.sent = w1.sent ++ (w1.buf ++ ensureOut (panic500Writer w1)) ∧
      ∃ rest, ensureOut (panic500Writer w1) =
        strB "HTTP/1.1 500 Internal Server Error\r\n" ++ rest) ∧
    (∀ (run : RW → HOutcome) (w0 w1 : RW), run w0 = HOutcome.panicked w1 →
      w1.headerSent = true → (handleRequest run w0).1 = w1) ∧
    (∀ (run : RW → HOutcome) (w0 w1 : RW), run w0 = HOutcome.panicked w1 →
      w1.hijacked = true → (handleRequest run w0).1 = w1) := by
  refine ⟨?_, ?_, ?_, ?_⟩
  · intro run w0 w1 hrun
    rw [handleRequest]
    simp only [hrun]
    constructor
    · split <;> rfl
    · rfl
  · intro run w0 w1 hrun hhs hh
    rw [handleRequest_panic_before_headers run w0 w1 hrun hhs hh]
    constructor
    · rfl
    · refine ⟨(if hdrGet (panic500Writer w1).header "Date" = "" then
          strB "Date: " ++ strB currentDateModel ++ crlfB
        else []) ++
          (headerWriteBytes (panic500Writer w1).header ++
            ((if ensureChunked (panic500Writer w1) = true ∧
                hdrGet (panic500Writer w1).header "Transfer-Encoding" = "" then
              strB "Transfer-Encoding: chunked\r\n"
             else []) ++ crlfB)), ?_⟩
      rw [ensureOut]
      have h500 : (panic500Writer w1).statusCode = 500 := rfl
      rw [h500]
      have hsl : statusLine 500 = "HTTP/1.1 500 Internal Server Error\r\n" := by decide
      rw [hsl]
      simp [List.append_assoc]
  · intro run w0 w1 hrun hhs
    rw [handleRequest]
    simp only [hrun]
    rw [if_pos hhs]
  · intro run w0 w1 hrun hh
    rw [handleRequest]
    simp only [hrun]
    by_cases hhs : w1.headerSent = true
    · rw [if_pos hhs]
    · rw [if_neg hhs]
      rw [writeHeader, if_pos (Or.inl hh)]
      rw [endResponse, if_pos (by simp [hh])]

/-- Witness for the amended C5: a handler that panics immediately on a fresh
writer. -/
theorem C5_panic_500_amended_witness :
    (handleRequest (fun w => HOutcome.panicked w) newResponseWriter).2.2 = true ∧
    (handleRequest (fun w => HOutcome.panicked w) newResponseWriter).1.sent =
      newResponseWriter.sent ++
        (newResponseWriter.buf ++ ensureOut (panic500Writer newResponseWriter)) :=
  ⟨(C5_panic_500_amended.1 (fun w => HOutcome.panicked w) newResponseWriter
      newResponseWriter rfl).1,
   (C5_panic_500_amended.2.1 (fun w => HOutcome.panicked w) newResponseWriter
      newResponseWriter rfl rfl rfl).1⟩

end Hon.Engine
